import Mathlib

/-!
# upload_to_firebase.js

A shallow embedding of the upload script `upload_to_firebase.js`.

The script reads `firebase.json` (project id), loads a service-account key,
reads `firebase_data.json` and writes every entry of its `blogs` object to the
collection `blogs` with `set(body, merge)`.

What is outside the script is an input of the model:
* the contents of a file are given as `FileInput`: the file is missing, its text
  is rejected by `JSON.parse`, or `JSON.parse` returns a value;
* the Firestore client is a parameter `Client σ`: one `set` call either fails or
  gives the next state of the remote store;
* loading the service-account key either raises or not.

JavaScript strings are modelled by Lean strings, one element per character
(characters outside the Basic Multilingual Plane and lone surrogates are outside
the model). A JSON number is kept as its canonical rendering, the text that
`String(n)` gives; the script never computes with a number.
-/

namespace UploadToFirebase

/-! ## JavaScript values that `JSON.parse` can return -/

/-- A value returned by `JSON.parse`. The members of an object are listed in the
order of the file text, a repeated key included each time it occurs. -/
inductive Json where
  | null
  | bool (b : Bool)
  | num (text : String)
  | str (s : String)
  | arr (items : List Json)
  | obj (members : List (String × Json))

/-- An error value thrown while the script runs. -/
inductive JsError where
  | fileNotFound
  | syntaxError
  | typeError
  | rejected (reason : String)
  deriving DecidableEq

/-- The contents of a file the script reads and parses. -/
inductive FileInput where
  | missing
  | malformed
  | parsed (j : Json)

/-- The call `JSON.parse(fs.readFileSync(path, 'utf-8'))`. -/
def parseFile : FileInput → Except JsError Json
  | .missing => .error .fileNotFound
  | .malformed => .error .syntaxError
  | .parsed j => .ok j

/-- The value of the last member with key `k`: `JSON.parse` lets a later
occurrence of a key overwrite an earlier one. -/
def lookupLast : List (String × Json) → String → Option Json
  | [], _ => none
  | (k', v) :: rest, k =>
    match lookupLast rest k with
    | some w => some w
    | none => if k' = k then some v else none

/-- The value of a decimal digit. -/
def digitVal (c : Char) : Option Nat :=
  if '0' ≤ c ∧ c ≤ '9' then some (c.toNat - 48) else none

/-- The number written by a list of decimal digits, given the digits read so far. -/
def parseDigits : Nat → List Char → Option Nat
  | acc, [] => some acc
  | acc, c :: cs =>
    match digitVal c with
    | some d => parseDigits (acc * 10 + d) cs
    | none => none

/-- The array index a property key stands for, if any: a canonical decimal
numeral below `2^32 - 1`. -/
def arrayIndex (k : String) : Option Nat :=
  match k.data with
  | [] => none
  | ['0'] => some 0
  | '0' :: _ => none
  | cs =>
    match parseDigits 0 cs with
    | some n => if n < 4294967295 then some n else none
    | none => none

/-- The keys of a list, each once, at the place of its first occurrence. -/
def dedupKeys : List String → List String
  | [] => []
  | k :: ks => k :: (dedupKeys ks).filter (fun k' => k' ≠ k)

/-- The keys among `ks` that are array indices, in ascending numeric order. -/
def indexKeys (ks : List String) : List String :=
  ((ks.filterMap (fun k => (arrayIndex k).map (fun n => (n, k)))).insertionSort
    (fun a b => a.1 ≤ b.1)).map Prod.snd

/-- The own property keys of the object parsed from `members`, in the order in
which JavaScript enumerates them: array indices ascending, then the other keys
in the order of their creation. -/
def ownKeys (members : List (String × Json)) : List String :=
  let ks := dedupKeys (members.map Prod.fst)
  indexKeys ks ++ ks.filter (fun k => (arrayIndex k).isNone)

/-- The own enumerable properties of the object parsed from `members`. -/
def ownEntries (members : List (String × Json)) : List (String × Json) :=
  (ownKeys members).filterMap (fun k => (lookupLast members k).map (fun v => (k, v)))

/-- The pairs `(i, x)` of a list with the indices from `i` on as keys. -/
def indexed {α : Type} (f : α → Json) : Nat → List α → List (String × Json)
  | _, [] => []
  | i, x :: xs => (toString i, f x) :: indexed f (i + 1) xs

/-- The expression `Object.entries(v)`; `none` stands for `undefined`. -/
def objectEntries : Option Json → Except JsError (List (String × Json))
  | none => .error .typeError
  | some .null => .error .typeError
  | some (.bool _) => .ok []
  | some (.num _) => .ok []
  | some (.str s) => .ok (indexed (fun c => Json.str (String.singleton c)) 0 s.data)
  | some (.arr items) => .ok (indexed id 0 items)
  | some (.obj members) => .ok (ownEntries members)

/-- The expression `Object.keys(v)`. -/
def objectKeys (v : Option Json) : Except JsError (List String) :=
  (objectEntries v).map (fun es => es.map Prod.fst)

/-- The property `k` of a value that is neither `undefined` nor `null`, for a
key that no built-in prototype defines. -/
def getProp : Json → String → Option Json
  | .obj members, k => lookupLast members k
  | .arr items, k =>
    if k = "length" then some (.num (toString items.length))
    else (arrayIndex k).bind (fun i => items.get? i)
  | .str s, k =>
    if k = "length" then some (.num (toString s.length))
    else (arrayIndex k).bind (fun i => (s.data.get? i).map (fun c => .str (String.singleton c)))
  | _, _ => none

/-- The expression `v.k`: raises a TypeError on `undefined` and `null`. -/
def member : Option Json → String → Except JsError (Option Json)
  | none, _ => .error .typeError
  | some .null, _ => .error .typeError
  | some v, k => .ok (getProp v k)

/-- The expression `v?.k`. -/
def optMember : Option Json → String → Option Json
  | none, _ => none
  | some .null, _ => none
  | some v, k => getProp v k

/-- JavaScript truthiness. -/
def truthy : Option Json → Bool
  | none => false
  | some .null => false
  | some (.bool b) => b
  | some (.num text) => text ≠ "0"
  | some (.str s) => s ≠ ""
  | some (.arr _) => true
  | some (.obj _) => true

/-- The expression `a || b`. -/
def orElse (a b : Option Json) : Option Json :=
  if truthy a then a else b

mutual
/-- The conversion of a value to a string in a template literal. An object with
an own `toString` property has no callable `toString` and the inherited
`valueOf` returns the object, so the conversion raises a TypeError. -/
def toStr : Json → Except JsError String
  | .null => .ok "null"
  | .bool b => .ok (if b then "true" else "false")
  | .num text => .ok text
  | .str s => .ok s
  | .arr items => (joinItems items).map (fun ss => ",".intercalate ss)
  | .obj members =>
    match lookupLast members "toString" with
    | some _ => .error .typeError
    | none => .ok "[object Object]"
/-- The strings that `Array.prototype.join` puts between the separators. -/
def joinItems : List Json → Except JsError (List String)
  | [] => .ok []
  | .null :: rest => (joinItems rest).map (fun ss => "" :: ss)
  | x :: rest =>
    match toStr x with
    | .error e => .error e
    | .ok s => (joinItems rest).map (fun ss => s :: ss)
end

/-- The conversion of a template-literal hole whose value may be `undefined`. -/
def template : Option Json → Except JsError String
  | none => .ok "undefined"
  | some v => toStr v

/-- A JavaScript value as the script sees it: `none` stands for `undefined`. -/
abbrev JsValue := Option Json

/-! ## The remote store, the console and the process -/

/-- The call `db.collection(collection).doc(doc).set(body, options)`; `merge` is
the `merge` option. -/
structure WriteReq where
  collection : String
  doc : String
  body : Json
  merge : Bool

/-- The Firestore client `db`: a `set` call on the remote store in state `σ`
either raises or leaves the store in a new state. A call that raises leaves
the store as it was. -/
structure Client (σ : Type) where
  set : σ → WriteReq → Except JsError σ

/-- What the script does that can be observed, in the order in which it happens. -/
inductive Event where
  | out (text : String)
  | err (text : String)
  | errMsg (text : String) (e : JsError)
  | set (req : WriteReq) (ok : Bool)

/-- How the process ends: `process.exit(code)`, or an exception that nothing
catches. -/
inductive Termination where
  | exit (code : Nat)
  | uncaught (e : JsError)

/-- The exit code of the process; Node ends with code 1 on an uncaught exception. -/
def Termination.code : Termination → Nat
  | .exit code => code
  | .uncaught _ => 1

/-- A finished run: the events, the remote store it leaves and how it ended. -/
structure Run (σ : Type) where
  trace : List Event
  store : σ
  term : Termination

/-- The `set` calls of a trace, with their outcome. -/
def writes : List Event → List (WriteReq × Bool)
  | [] => []
  | .set req ok :: rest => (req, ok) :: writes rest
  | _ :: rest => writes rest

/-! ## The script -/

/-- The function `readProjectId`: the value returned and the console output. -/
def readProjectId (config : FileInput) : JsValue × List Event :=
  match parseFile config with
  | .ok firebaseConfig =>
    let projectId :=
      optMember (optMember (optMember (optMember (optMember (some firebaseConfig)
        "flutter") "platforms") "android") "default") "projectId"
    (orElse projectId (some (.str "migynaeblogs")), [])
  | .error _ => (some (.str "migynaeblogs"), [.err "❌ Could not read firebase.json"])

/-- The four console lines after a write (lines 72 to 75): the lines printed and
the error raised, if any, while a template literal is evaluated. -/
def logSummary (blogId : String) (blogData : Json) : List Event × Option JsError :=
  let l1 := [Event.out ("✅ Successfully uploaded: " ++ blogId)]
  match member (some blogData) "title" >>= template with
  | .error e => (l1, some e)
  | .ok title =>
    let l2 := l1 ++ [Event.out ("   Title: " ++ title)]
    match member (some blogData) "contentBlocks" >>= fun contentBlocks =>
        template (orElse (optMember contentBlocks "length") (some (.num "0"))) with
    | .error e => (l2, some e)
    | .ok count =>
      let l3 := l2 ++ [Event.out ("   Content Blocks: " ++ count)]
      match member (some blogData) "readTimeMinutes" >>= template with
      | .error e => (l3, some e)
      | .ok mins => (l3 ++ [Event.out ("   Read Time: " ++ mins ++ " mins\n")], none)

/-- The state in which the `for` loop of `uploadData` stops. -/
structure LoopResult (σ : Type) where
  trace : List Event
  store : σ
  thrown : Option JsError

/-- The `for` loop of `uploadData` over the entries still to upload. -/
def uploadLoop {σ : Type} (db : Client σ) : List (String × Json) → σ → LoopResult σ
  | [], st => ⟨[], st, none⟩
  | (blogId, blogData) :: rest, st =>
    let start := Event.out ("📝 Uploading blog: " ++ blogId ++ "...")
    let req : WriteReq := ⟨"blogs", blogId, blogData, true⟩
    match db.set st req with
    | .error e => ⟨[start, .set req false], st, some e⟩
    | .ok st1 =>
      match logSummary blogId blogData with
      | (lines, some e) => ⟨start :: .set req true :: lines, st1, some e⟩
      | (lines, none) =>
        let r := uploadLoop db rest st1
        ⟨start :: .set req true :: (lines ++ r.trace), r.store, r.thrown⟩

/-- The `catch` block of `uploadData` (lines 82 to 90). -/
def uploadFailed {σ : Type} (trace : List Event) (st : σ) (error : JsError) : Run σ :=
  ⟨trace ++ [.errMsg "❌ Error uploading data:" error,
      .out "\n⚠️  Troubleshooting:\n",
      .out "- Make sure firebase_data.json exists in this directory",
      .out "- Make sure firebase.json is valid",
      .out "- Run: firebase login",
      .out "- Check your internet connection\n"],
    st, .exit 1⟩

/-- The function `uploadData`, run with the client `db`, the data file
`firebase_data.json` and the remote store in state `st`. -/
def uploadData {σ : Type} (db : Client σ) (data : FileInput) (st : σ) : Run σ :=
  let l0 := [Event.out "📁 Reading firebase_data.json..."]
  match parseFile data with
  | .error e => uploadFailed l0 st e
  | .ok jsonData =>
    let l1 := l0 ++ [Event.out "✅ JSON loaded successfully\n"]
    match member (some jsonData) "blogs" >>= objectKeys with
    | .error e => uploadFailed l1 st e
    | .ok keys =>
      let l2 := l1 ++ [Event.out ("📊 Found blogs: " ++ toString keys.length ++ "\n")]
      match member (some jsonData) "blogs" >>= objectEntries with
      | .error e => uploadFailed l2 st e
      | .ok entries =>
        let r := uploadLoop db entries st
        match r.thrown with
        | some e => uploadFailed (l2 ++ r.trace) r.store e
        | none =>
          ⟨l2 ++ r.trace ++ [.out "🎉 All data uploaded successfully!",
              .out "\n✨ You can now run the Flutter app with: flutter run\n"],
            r.store, .exit 0⟩

/-- The `catch` block of the initialisation (lines 40 to 50). -/
def initFailed {σ : Type} (trace : List Event) (st : σ) (error : JsError) : Run σ :=
  ⟨trace ++ [.errMsg "❌ Firebase initialization error:" error,
      .out "\n⚠️  SETUP REQUIRED:\n",
      .out "1. Install Firebase CLI:",
      .out "   npm install -g firebase-tools\n",
      .out "2. Login to Firebase:",
      .out "   firebase login\n",
      .out "3. Then run this script again:",
      .out "   node upload_to_firebase.js\n"],
    st, .exit 1⟩

/-- The whole script. `config` is `firebase.json`, `data` is
`firebase_data.json`; `credentials` is the error raised while the service-account
key is loaded and the app initialised, if any. -/
def runScript {σ : Type} (db : Client σ) (config : FileInput) (credentials : Option JsError)
    (data : FileInput) (st : σ) : Run σ :=
  let (projectId, l0) := readProjectId config
  match template projectId with
  | .error e => ⟨l0, st, .uncaught e⟩
  | .ok name =>
    let l1 := l0 ++ [Event.out ("\n📱 Firebase Project: " ++ name ++ "\n")]
    match credentials with
    | some e => initFailed l1 st e
    | none =>
      let r := uploadData db data st
      ⟨l1 ++ r.trace, r.store, r.term⟩

/-! ## Notions used to state the properties -/

/-- The own field `k` of a JSON object; a value that is not an object has none. -/
def field : Json → String → Option Json
  | .obj members, k => lookupLast members k
  | _, _ => none

/-- The value found by following a path of field names through nested objects. -/
def nestedField : Json → List String → Option Json
  | j, [] => some j
  | j, k :: ks =>
    match field j k with
    | some v => nestedField v ks
    | none => none

/-- The path of the project id in `firebase.json`. -/
def projectIdPath : List String :=
  ["flutter", "platforms", "android", "default", "projectId"]

/-- The members of the `blogs` mapping of a data file, as written in the file. -/
def blogsMapping : FileInput → Option (List (String × Json))
  | .parsed j =>
    match field j "blogs" with
    | some (.obj members) => some members
    | _ => none
  | _ => none

/-- The request the loop issues for an entry. -/
def requestOf (e : String × Json) : WriteReq :=
  ⟨"blogs", e.1, e.2, true⟩

/-- The entries that the loop of `uploadData` iterates, or the error raised
before the loop is reached. -/
def loopEntries (data : FileInput) : Except JsError (List (String × Json)) :=
  parseFile data >>= fun jsonData => member (some jsonData) "blogs" >>= objectEntries

/-- The entries that the loop iterates, none when the loop is not reached. -/
def entriesOf (data : FileInput) : List (String × Json) :=
  match loopEntries data with
  | .ok es => es
  | .error _ => []

/-- The store after a sequence of `set` calls, each made on the store that the
previous one left; a call that raises leaves the store as it was. -/
def applyWrites {σ : Type} (db : Client σ) : σ → List WriteReq → σ
  | st, [] => st
  | st, req :: rest =>
    match db.set st req with
    | .ok st1 => applyWrites db st1 rest
    | .error _ => applyWrites db st rest

/-! ## The remote document store -/

/-- Modelled from the spec: a stored document, the value of each of its fields
(the Firestore service is not part of the sources). -/
abbrev Doc := String → Option Json

/-- Modelled from the spec: the remote store, the document stored in a
collection under an identifier, if any. -/
abbrev Store := String → String → Option Doc

/-- Modelled from the spec: the document left by a write with merge semantics:
"existing fields not present in the new body are preserved; matching fields are
overwritten". -/
def mergeDoc (old : Option Doc) (body : Json) : Doc := fun f =>
  match field body f with
  | some v => some v
  | none =>
    match old with
    | some d => d f
    | none => none

/-- Modelled from the spec: the store after a successful write; without the
merge option the body replaces the document. -/
def Store.write (st : Store) (req : WriteReq) : Store := fun c d =>
  if c = req.collection ∧ d = req.doc then
    some (if req.merge then mergeDoc (st c d) req.body else field req.body)
  else st c d

/-- Modelled from the spec: a client of the remote store. The remote accepts the
requests that `accepts` holds of and rejects the others. -/
def remoteStore (accepts : WriteReq → Bool) : Client Store :=
  ⟨fun st req => if accepts req then .ok (st.write req) else .error (.rejected "remote error")⟩

/-- The store with no document. -/
def emptyStore : Store := fun _ _ => none

/-- The store after the entries `es` have been written one after the other. -/
def mergeAll (st : Store) (es : List (String × Json)) : Store :=
  es.foldl (fun s e => s.write (requestOf e)) st

/-- The value that the entries `es` give to field `f` of document `d`: that of
the last entry for `d` whose body has the field. -/
def lastField : List (String × Json) → String → String → Option Json
  | [], _, _ => none
  | (k, body) :: rest, d, f =>
    match lastField rest d f with
    | some v => some v
    | none => if k = d then field body f else none

/-- The document `d` after the entries `es` have been merged into `old`. -/
def mergedDoc (es : List (String × Json)) (old : Option Doc) (d : String) : Doc := fun f =>
  match lastField es d f with
  | some v => some v
  | none =>
    match old with
    | some doc => doc f
    | none => none

/-- The entries that a run with the client `remoteStore accepts` writes: those
before the first entry that the remote rejects, up to the first entry whose
console lines raise. -/
def keptEntries (accepts : WriteReq → Bool) : List (String × Json) → List (String × Json)
  | [] => []
  | e :: rest =>
    if accepts (requestOf e) then
      match (logSummary e.1 e.2).2 with
      | none => e :: keptEntries accepts rest
      | some _ => [e]
    else []

/-! ## Example inputs -/

/-- The data file of the example scenario: one post. -/
def onePost : FileInput :=
  .parsed (.obj [("blogs", .obj [("post1", .obj [("title", .str "A"),
    ("contentBlocks", .arr [.num "1", .num "2"]), ("readTimeMinutes", .num "3")])])])

/-- A data file with two posts; the title of the first is an object with a field
named `toString`. -/
def objectTitle : FileInput :=
  .parsed (.obj [("blogs", .obj [("a", .obj [("title", .obj [("toString", .num "1")])]),
    ("b", .obj [("title", .str "B")])])])

/-- A data file whose second key is a numeral. -/
def numeralKey : FileInput :=
  .parsed (.obj [("blogs", .obj [("b", .obj [("title", .str "B")]),
    ("1", .obj [("title", .str "One")])])])

/-- A data file with the posts "b" and "a", in this order. -/
def postsBA : FileInput :=
  .parsed (.obj [("blogs", .obj [("b", .obj [("title", .str "B")]),
    ("a", .obj [("title", .str "A")])])])

/-- The data file of `postsBA` with its two posts in the other order. -/
def postsAB : FileInput :=
  .parsed (.obj [("blogs", .obj [("a", .obj [("title", .str "A")]),
    ("b", .obj [("title", .str "B")])])])

/-- A data file whose `blogs` field is a number. -/
def blogsNumber : FileInput :=
  .parsed (.obj [("blogs", .num "5")])

/-- A data file with three posts. -/
def threePosts : FileInput :=
  .parsed (.obj [("blogs", .obj [("a", .obj [("title", .str "A")]),
    ("b", .obj [("title", .str "B")]), ("c", .obj [("title", .str "C")])])])

/-- A configuration with the given value at the project-id path. -/
def configWith (v : Json) : Json :=
  .obj [("flutter", .obj [("platforms", .obj [("android", .obj [("default",
    .obj [("projectId", v)])])])])]

/-- A test client: its store is the list of the requests accepted so far, and it
accepts the requests that `accepts` holds of. -/
def recorder (accepts : WriteReq → Bool) : Client (List WriteReq) :=
  ⟨fun st req => if accepts req then .ok (st ++ [req]) else .error (.rejected "remote error")⟩

/-- A remote that accepts every request. -/
def acceptAll : WriteReq → Bool := fun _ => true

/-- A remote that rejects the requests for document `b`. -/
def rejectB : WriteReq → Bool := fun req => req.doc ≠ "b"

/-- A store that already holds a document `post1` with a field `views`. -/
def seededStore : Store :=
  emptyStore.write ⟨"blogs", "post1", .obj [("views", .num "7"), ("title", .str "old")], true⟩

/-! ## The shape of a run -/

theorem writes_append (a b : List Event) : writes (a ++ b) = writes a ++ writes b := by
  induction a with
  | nil => rfl
  | cons e a ih => cases e <;> simp [writes, ih]

theorem writes_logSummary (blogId : String) (blogData : Json) :
    writes (logSummary blogId blogData).1 = [] := by
  unfold logSummary
  split
  · rfl
  · split
    · rfl
    · split <;> rfl

theorem objectKeys_eq (v : Option Json) :
    objectKeys v = (objectEntries v).map (fun es => es.map Prod.fst) := rfl

theorem uploadFailed_facts {σ : Type} (trace : List Event) (st : σ) (e : JsError) :
    writes (uploadFailed trace st e).trace = writes trace ∧ (uploadFailed trace st e).store = st ∧
      (uploadFailed trace st e).term = .exit 1 ∧
      Event.errMsg "❌ Error uploading data:" e ∈ (uploadFailed trace st e).trace := by
  simp [uploadFailed, writes_append, writes]

theorem uploadData_error {σ : Type} (db : Client σ) (data : FileInput) (st : σ) (e : JsError)
    (h : loopEntries data = .error e) :
    writes (uploadData db data st).trace = [] ∧ (uploadData db data st).store = st ∧
      (uploadData db data st).term = .exit 1 ∧
      Event.errMsg "❌ Error uploading data:" e ∈ (uploadData db data st).trace := by
  unfold loopEntries at h
  unfold uploadData
  cases hp : parseFile data with
  | error e1 =>
    rw [hp] at h
    cases h
    exact ⟨(uploadFailed_facts _ st e).1.trans rfl, (uploadFailed_facts _ st e).2⟩
  | ok j =>
    rw [hp] at h
    simp only [bind, Except.bind] at h ⊢
    cases hm : member (some j) "blogs" with
    | error e1 =>
      rw [hm] at h
      cases h
      exact ⟨(uploadFailed_facts _ st e).1.trans rfl, (uploadFailed_facts _ st e).2⟩
    | ok v =>
      rw [hm] at h
      simp only at h ⊢
      cases ho : objectEntries v with
      | ok es => rw [ho] at h; cases h
      | error e1 =>
        rw [ho] at h
        cases h
        simp only [objectKeys_eq, ho, Except.map]
        exact ⟨(uploadFailed_facts _ st e).1.trans rfl, (uploadFailed_facts _ st e).2⟩

theorem uploadData_ok {σ : Type} (db : Client σ) (data : FileInput) (st : σ)
    (es : List (String × Json)) (h : loopEntries data = .ok es) :
    writes (uploadData db data st).trace = writes (uploadLoop db es st).trace ∧
      (uploadData db data st).store = (uploadLoop db es st).store ∧
      ((uploadLoop db es st).thrown = none → (uploadData db data st).term = .exit 0) ∧
      (∀ e, (uploadLoop db es st).thrown = some e →
        (uploadData db data st).term = .exit 1 ∧
        Event.errMsg "❌ Error uploading data:" e ∈ (uploadData db data st).trace) := by
  unfold loopEntries at h
  unfold uploadData
  cases hp : parseFile data with
  | error e1 => rw [hp] at h; cases h
  | ok j =>
    rw [hp] at h
    simp only [bind, Except.bind] at h ⊢
    cases hm : member (some j) "blogs" with
    | error e1 => rw [hm] at h; cases h
    | ok v =>
      rw [hm] at h
      simp only at h ⊢
      simp only [objectKeys_eq, h, Except.map]
      cases ht : (uploadLoop db es st).thrown with
      | none => simp [writes_append, writes]
      | some e =>
        simp only
        have := uploadFailed_facts ([Event.out "📁 Reading firebase_data.json..."] ++ [Event.out "✅ JSON loaded successfully\n"] ++
              [Event.out ("📊 Found blogs: " ++ toString (List.map Prod.fst es).length ++ "\n")] ++
            (uploadLoop db es st).trace) (uploadLoop db es st).store e
        simp [writes_append, writes] at this ⊢
        exact this

/-! ## The loop -/

theorem uploadLoop_nil {σ : Type} (db : Client σ) (st : σ) :
    uploadLoop db [] st = ⟨[], st, none⟩ := rfl

theorem uploadLoop_rejected {σ : Type} (db : Client σ) (e : String × Json)
    (rest : List (String × Json)) (st : σ) (err : JsError)
    (h : db.set st (requestOf e) = .error err) :
    uploadLoop db (e :: rest) st =
      ⟨[Event.out ("📝 Uploading blog: " ++ e.1 ++ "..."), .set (requestOf e) false], st,
        some err⟩ := by
  obtain ⟨blogId, blogData⟩ := e
  simp only [uploadLoop]
  simp only [requestOf] at h
  rw [h]
  rfl

theorem uploadLoop_threw {σ : Type} (db : Client σ) (e : String × Json)
    (rest : List (String × Json)) (st st1 : σ) (lines : List Event) (err : JsError)
    (h : db.set st (requestOf e) = .ok st1) (hl : logSummary e.1 e.2 = (lines, some err)) :
    uploadLoop db (e :: rest) st =
      ⟨Event.out ("📝 Uploading blog: " ++ e.1 ++ "...") :: .set (requestOf e) true :: lines,
        st1, some err⟩ := by
  obtain ⟨blogId, blogData⟩ := e
  simp only [uploadLoop]
  simp only [requestOf] at h
  rw [h]
  simp only at hl ⊢
  rw [hl]
  rfl

theorem uploadLoop_next {σ : Type} (db : Client σ) (e : String × Json)
    (rest : List (String × Json)) (st st1 : σ) (lines : List Event)
    (h : db.set st (requestOf e) = .ok st1) (hl : logSummary e.1 e.2 = (lines, none)) :
    uploadLoop db (e :: rest) st =
      ⟨Event.out ("📝 Uploading blog: " ++ e.1 ++ "...") :: .set (requestOf e) true ::
          (lines ++ (uploadLoop db rest st1).trace),
        (uploadLoop db rest st1).store, (uploadLoop db rest st1).thrown⟩ := by
  obtain ⟨blogId, blogData⟩ := e
  simp only [uploadLoop]
  simp only [requestOf] at h
  rw [h]
  simp only at hl ⊢
  rw [hl]
  rfl

theorem writes_of_lines (blogId : String) (blogData : Json) (lines : List Event)
    (err : Option JsError) (hl : logSummary blogId blogData = (lines, err)) :
    writes lines = [] := by
  have h := writes_logSummary blogId blogData
  rw [hl] at h
  exact h

/-- The three ways in which one turn of the loop can go. -/
theorem uploadLoop_cases {σ : Type} (db : Client σ) (e : String × Json)
    (rest : List (String × Json)) (st : σ) :
    (∃ err, db.set st (requestOf e) = .error err ∧
        writes (uploadLoop db (e :: rest) st).trace = [(requestOf e, false)] ∧
        (uploadLoop db (e :: rest) st).store = st ∧
        (uploadLoop db (e :: rest) st).thrown = some err) ∨
      (∃ st1 err, db.set st (requestOf e) = .ok st1 ∧ (logSummary e.1 e.2).2 = some err ∧
        writes (uploadLoop db (e :: rest) st).trace = [(requestOf e, true)] ∧
        (uploadLoop db (e :: rest) st).store = st1 ∧
        (uploadLoop db (e :: rest) st).thrown = some err) ∨
      (∃ st1, db.set st (requestOf e) = .ok st1 ∧ (logSummary e.1 e.2).2 = none ∧
        writes (uploadLoop db (e :: rest) st).trace =
          (requestOf e, true) :: writes (uploadLoop db rest st1).trace ∧
        (uploadLoop db (e :: rest) st).store = (uploadLoop db rest st1).store ∧
        (uploadLoop db (e :: rest) st).thrown = (uploadLoop db rest st1).thrown) := by
  cases hs : db.set st (requestOf e) with
  | error err =>
    left
    exact ⟨err, rfl, by rw [uploadLoop_rejected db e rest st err hs]; rfl,
      by rw [uploadLoop_rejected db e rest st err hs],
      by rw [uploadLoop_rejected db e rest st err hs]⟩
  | ok st1 =>
    right
    cases hl : logSummary e.1 e.2 with
    | mk lines thrown =>
      have hw := writes_of_lines e.1 e.2 lines thrown hl
      cases thrown with
      | some err =>
        left
        refine ⟨st1, err, rfl, rfl, ?_, ?_, ?_⟩
        · rw [uploadLoop_threw db e rest st st1 lines err hs hl]
          simp [writes, hw]
        · rw [uploadLoop_threw db e rest st st1 lines err hs hl]
        · rw [uploadLoop_threw db e rest st st1 lines err hs hl]
      | none =>
        right
        refine ⟨st1, rfl, rfl, ?_, ?_, ?_⟩
        · rw [uploadLoop_next db e rest st st1 lines hs hl]
          simp [writes, writes_append, hw]
        · rw [uploadLoop_next db e rest st st1 lines hs hl]
        · rw [uploadLoop_next db e rest st st1 lines hs hl]

theorem uploadLoop_all {σ : Type} (db : Client σ) (es : List (String × Json)) :
    ∀ st : σ, (∀ s, ∀ e ∈ es, ∃ s1, db.set s (requestOf e) = .ok s1) →
      (∀ e ∈ es, (logSummary e.1 e.2).2 = none) →
      writes (uploadLoop db es st).trace = es.map (fun e => (requestOf e, true)) ∧
        (uploadLoop db es st).thrown = none := by
  induction es with
  | nil => intro st _ _; exact ⟨rfl, rfl⟩
  | cons e rest ih =>
    intro st hok hlog
    have hrest := fun s1 => ih s1 (fun s x hx => hok s x (List.mem_cons_of_mem _ hx))
      (fun x hx => hlog x (List.mem_cons_of_mem _ hx))
    rcases uploadLoop_cases db e rest st with ⟨err, hs, _⟩ | ⟨st1, err, _, hl, _⟩ |
      ⟨st1, _, _, hw, _, ht⟩
    · obtain ⟨s1, h1⟩ := hok st e (List.mem_cons_self _ _)
      rw [h1] at hs
      cases hs
    · rw [hlog e (List.mem_cons_self _ _)] at hl
      cases hl
    · rw [hw, ht, (hrest st1).1, (hrest st1).2]
      exact ⟨rfl, rfl⟩

theorem uploadLoop_store {σ : Type} (db : Client σ) (es : List (String × Json)) :
    ∀ st : σ, (uploadLoop db es st).store =
      applyWrites db st ((writes (uploadLoop db es st).trace).map Prod.fst) := by
  induction es with
  | nil => intro st; rfl
  | cons e rest ih =>
    intro st
    rcases uploadLoop_cases db e rest st with ⟨err, hs, hw, hst, _⟩ | ⟨st1, err, hs, _, hw, hst, _⟩ |
      ⟨st1, hs, _, hw, hst, _⟩
    · rw [hw, hst]
      simp [applyWrites, hs]
    · rw [hw, hst]
      simp [applyWrites, hs]
    · rw [hw, hst, ih st1]
      simp [applyWrites, hs]

theorem uploadLoop_abort {σ : Type} (db : Client σ) (es : List (String × Json)) :
    ∀ (st : σ) (K : Nat) (req : WriteReq),
      (writes (uploadLoop db es st).trace).get? K = some (req, false) →
      writes (uploadLoop db es st).trace =
          (es.take K).map (fun e => (requestOf e, true)) ++ [(req, false)] ∧
        (es.get? K).map requestOf = some req ∧
        (uploadLoop db es st).store = applyWrites db st ((es.take K).map requestOf) ∧
        (∃ err, (uploadLoop db es st).thrown = some err) := by
  induction es with
  | nil =>
    intro st K req h
    simp [uploadLoop_nil, writes] at h
  | cons e rest ih =>
    intro st K req h
    rcases uploadLoop_cases db e rest st with ⟨err, _, hw, hst, ht⟩ |
      ⟨st1, err, _, _, hw, _, ht⟩ | ⟨st1, hs, _, hw, hst, ht⟩
    · rw [hw] at h ⊢
      cases K with
      | zero =>
        simp only [List.get?_cons_zero, Option.some.injEq, Prod.mk.injEq] at h
        simp [h.1, ht, hst, applyWrites]
      | succ n => simp at h
    · rw [hw] at h
      cases K with
      | zero => simp at h
      | succ n => simp at h
    · rw [hw] at h ⊢
      cases K with
      | zero => simp at h
      | succ n =>
        simp only [List.get?_cons_succ] at h
        obtain ⟨h1, h2, h3, h4⟩ := ih st1 n req h
        rw [h1, ht, hst, h3]
        exact ⟨by simp, by simpa using h2, by simp [applyWrites, hs], h4⟩

theorem uploadLoop_initial {σ : Type} (db : Client σ) (es : List (String × Json)) :
    ∀ st : σ, (writes (uploadLoop db es st).trace).map Prod.fst <+: es.map requestOf ∧
      ((uploadLoop db es st).thrown = none →
        writes (uploadLoop db es st).trace = es.map (fun e => (requestOf e, true))) := by
  induction es with
  | nil => intro st; exact ⟨by simp [uploadLoop_nil, writes], fun _ => rfl⟩
  | cons e rest ih =>
    intro st
    rcases uploadLoop_cases db e rest st with ⟨err, _, hw, _, ht⟩ | ⟨st1, err, _, _, hw, _, ht⟩ |
      ⟨st1, _, _, hw, _, ht⟩
    · rw [hw, ht]
      exact ⟨by simp [List.prefix_cons_inj], by simp⟩
    · rw [hw, ht]
      exact ⟨by simp [List.prefix_cons_inj], by simp⟩
    · rw [hw, ht]
      refine ⟨?_, fun h => ?_⟩
      · simpa [List.prefix_cons_inj] using (ih st1).1
      · rw [(ih st1).2 h]
        rfl

/-! ## The entries of a parsed object -/

theorem mem_dedupKeys (ks : List String) (k : String) : k ∈ dedupKeys ks ↔ k ∈ ks := by
  induction ks with
  | nil => simp [dedupKeys]
  | cons a ks ih =>
    simp only [dedupKeys, List.mem_cons, List.mem_filter, ih]
    by_cases h : k = a <;> simp [h]

theorem nodup_dedupKeys (ks : List String) : (dedupKeys ks).Nodup := by
  induction ks with
  | nil => simp [dedupKeys]
  | cons a ks ih =>
    simp only [dedupKeys, List.nodup_cons, List.mem_filter]
    exact ⟨by simp, ih.filter _⟩

theorem dedupKeys_of_nodup (ks : List String) (h : ks.Nodup) : dedupKeys ks = ks := by
  induction ks with
  | nil => rfl
  | cons a ks ih =>
    rw [List.nodup_cons] at h
    simp only [dedupKeys, ih h.2]
    congr 1
    rw [List.filter_eq_self]
    intro k hk
    have : k ≠ a := fun hka => h.1 (hka ▸ hk)
    simpa using this

theorem indexKeys_perm (ks : List String) :
    (indexKeys ks).Perm (ks.filter (fun k => (arrayIndex k).isSome)) := by
  unfold indexKeys
  refine ((List.perm_insertionSort _ _).map Prod.snd).trans ?_
  apply List.Perm.of_eq
  induction ks with
  | nil => rfl
  | cons a ks ih =>
    cases h : arrayIndex a with
    | none => simp [List.filterMap_cons, List.filter_cons, h, ih]
    | some n => simp [List.filterMap_cons, List.filter_cons, h, ih]

theorem ownKeys_perm (members : List (String × Json)) :
    (ownKeys members).Perm (dedupKeys (members.map Prod.fst)) := by
  unfold ownKeys
  refine ((indexKeys_perm _).append_right _).trans ?_
  have h := List.filter_append_perm (fun k => (arrayIndex k).isSome)
    (dedupKeys (members.map Prod.fst))
  have hfun : (fun k : String => !(arrayIndex k).isSome) =
      fun k => (arrayIndex k).isNone := by
    funext k
    cases arrayIndex k <;> rfl
  rw [← hfun]
  exact h

theorem nodup_ownKeys (members : List (String × Json)) : (ownKeys members).Nodup :=
  (ownKeys_perm members).nodup_iff.mpr (nodup_dedupKeys _)

theorem mem_ownKeys (members : List (String × Json)) (k : String) :
    k ∈ ownKeys members ↔ k ∈ members.map Prod.fst := by
  rw [(ownKeys_perm members).mem_iff, mem_dedupKeys]

theorem lookupLast_eq_none (members : List (String × Json)) (k : String) :
    lookupLast members k = none ↔ k ∉ members.map Prod.fst := by
  induction members with
  | nil => simp [lookupLast]
  | cons a rest ih =>
    obtain ⟨k1, v⟩ := a
    simp only [lookupLast, List.map_cons, List.mem_cons, not_or]
    cases h : lookupLast rest k with
    | some w =>
      have : ¬ (k ∉ rest.map Prod.fst) := fun hn => by
        rw [ih.mpr hn] at h
        cases h
      constructor
      · intro hc
        cases hc
      · intro hc
        exact absurd hc.2 this
    | none =>
      have hk := ih.mp h
      by_cases hkk : k1 = k
      · simp [hkk]
      · simp [hkk, hk, Ne.symm hkk]

theorem mem_of_lookupLast (members : List (String × Json)) (k : String) (v : Json)
    (h : lookupLast members k = some v) : (k, v) ∈ members := by
  induction members with
  | nil => simp [lookupLast] at h
  | cons a rest ih =>
    obtain ⟨k1, v1⟩ := a
    simp only [lookupLast] at h
    cases hr : lookupLast rest k with
    | some w =>
      rw [hr] at h
      cases h
      exact List.mem_cons_of_mem _ (ih hr)
    | none =>
      rw [hr] at h
      by_cases hkk : k1 = k
      · simp only [hkk, if_true, Option.some.injEq] at h
        rw [hkk, h]
        exact List.mem_cons_self _ _
      · simp [hkk] at h

theorem lookupLast_of_mem (members : List (String × Json)) (k : String) (v : Json)
    (hn : (members.map Prod.fst).Nodup) (h : (k, v) ∈ members) :
    lookupLast members k = some v := by
  induction members with
  | nil => simp at h
  | cons a rest ih =>
    obtain ⟨k1, v1⟩ := a
    simp only [List.map_cons, List.nodup_cons] at hn
    simp only [lookupLast]
    rcases List.mem_cons.mp h with heq | hmem
    · cases heq
      rw [(lookupLast_eq_none rest k).mpr hn.1]
      simp
    · rw [ih hn.2 hmem]

theorem ownEntries_keys (members : List (String × Json)) :
    (ownEntries members).map Prod.fst = ownKeys members := by
  unfold ownEntries
  have hall : ∀ k ∈ ownKeys members, ∃ v, lookupLast members k = some v := by
    intro k hk
    cases h : lookupLast members k with
    | some v => exact ⟨v, rfl⟩
    | none => exact absurd ((mem_ownKeys members k).mp hk) ((lookupLast_eq_none members k).mp h)
  generalize ownKeys members = ks at hall
  induction ks with
  | nil => rfl
  | cons k ks ih =>
    obtain ⟨v, hv⟩ := hall k (List.mem_cons_self _ _)
    simp only [List.filterMap_cons, hv, Option.map_some', List.map_cons]
    rw [ih (fun x hx => hall x (List.mem_cons_of_mem _ hx))]

theorem mem_ownEntries (members : List (String × Json)) (k : String) (v : Json) :
    (k, v) ∈ ownEntries members ↔ lookupLast members k = some v := by
  unfold ownEntries
  rw [List.mem_filterMap]
  constructor
  · rintro ⟨k1, _, h⟩
    cases hl : lookupLast members k1 with
    | none => simp [hl] at h
    | some w =>
      simp only [hl, Option.map_some', Option.some.injEq, Prod.mk.injEq] at h
      rw [← h.1, ← h.2]
      exact hl
  · intro h
    refine ⟨k, (mem_ownKeys members k).mpr ?_, by simp [h]⟩
    exact List.mem_map.mpr ⟨(k, v), mem_of_lookupLast members k v h, rfl⟩

theorem nodup_ownEntries_keys (members : List (String × Json)) :
    ((ownEntries members).map Prod.fst).Nodup := by
  rw [ownEntries_keys]
  exact nodup_ownKeys members

theorem ownKeys_of_plain (members : List (String × Json))
    (hn : (members.map Prod.fst).Nodup)
    (hi : ∀ k ∈ members.map Prod.fst, arrayIndex k = none) :
    ownKeys members = members.map Prod.fst := by
  unfold ownKeys
  simp only [dedupKeys_of_nodup _ hn]
  have h1 : indexKeys (members.map Prod.fst) = [] := by
    have hp := indexKeys_perm (members.map Prod.fst)
    have : List.filter (fun k => (arrayIndex k).isSome) (members.map Prod.fst) = [] := by
      rw [List.filter_eq_nil_iff]
      intro k hk
      simp [hi k hk]
    rw [this] at hp
    exact hp.eq_nil
  rw [h1, List.nil_append, List.filter_eq_self]
  intro k hk
  simp [hi k hk]

theorem loopEntries_of_blogsMapping (data : FileInput) (members : List (String × Json))
    (h : blogsMapping data = some members) : loopEntries data = .ok (ownEntries members) := by
  cases data with
  | missing => simp [blogsMapping] at h
  | malformed => simp [blogsMapping] at h
  | parsed j =>
    cases j with
    | obj top =>
      simp only [blogsMapping, field] at h
      cases hb : lookupLast top "blogs" with
      | none => simp [hb] at h
      | some b =>
        rw [hb] at h
        cases b with
        | obj ms =>
          simp only [Option.some.injEq] at h
          subst h
          simp [loopEntries, parseFile, member, getProp, hb, bind, Except.bind, objectEntries]
        | _ => simp at h
    | _ => simp [blogsMapping, field] at h

/-! ## Runs against the remote document store -/

theorem remoteStore_set_ok (accepts : WriteReq → Bool) (st st1 : Store) (req : WriteReq)
    (h : (remoteStore accepts).set st req = .ok st1) :
    accepts req = true ∧ st1 = st.write req := by
  simp only [remoteStore] at h
  by_cases ha : accepts req = true
  · simp only [ha, if_true, Except.ok.injEq] at h
    exact ⟨ha, h.symm⟩
  · simp [ha] at h

theorem remoteStore_set_error (accepts : WriteReq → Bool) (st : Store) (req : WriteReq)
    (err : JsError) (h : (remoteStore accepts).set st req = .error err) :
    accepts req = false := by
  simp only [remoteStore] at h
  by_cases ha : accepts req = true
  · simp [ha] at h
  · simpa using ha

theorem mergeAll_cons (st : Store) (e : String × Json) (es : List (String × Json)) :
    mergeAll st (e :: es) = mergeAll (st.write (requestOf e)) es := rfl

theorem uploadLoop_remote_store (accepts : WriteReq → Bool) (es : List (String × Json)) :
    ∀ st : Store, (uploadLoop (remoteStore accepts) es st).store =
      mergeAll st (keptEntries accepts es) := by
  induction es with
  | nil => intro st; rfl
  | cons e rest ih =>
    intro st
    rcases uploadLoop_cases (remoteStore accepts) e rest st with
      ⟨err, hs, _, hst, _⟩ | ⟨st1, err, hs, hl, _, hst, _⟩ | ⟨st1, hs, hl, _, hst, _⟩
    · have ha := remoteStore_set_error accepts st _ err hs
      rw [hst]
      simp [keptEntries, ha, mergeAll]
    · obtain ⟨ha, h1⟩ := remoteStore_set_ok accepts st st1 _ hs
      rw [hst, h1]
      simp [keptEntries, ha, hl, mergeAll]
    · obtain ⟨ha, h1⟩ := remoteStore_set_ok accepts st st1 _ hs
      rw [hst, ih st1, h1]
      simp [keptEntries, ha, hl, mergeAll]

theorem uploadLoop_remote_done (accepts : WriteReq → Bool) (es : List (String × Json)) :
    ∀ st : Store, (uploadLoop (remoteStore accepts) es st).thrown = none →
      (uploadLoop (remoteStore accepts) es st).store = mergeAll st es := by
  induction es with
  | nil => intro st _; rfl
  | cons e rest ih =>
    intro st hnone
    rcases uploadLoop_cases (remoteStore accepts) e rest st with
      ⟨err, _, _, _, ht⟩ | ⟨st1, err, _, _, _, _, ht⟩ | ⟨st1, hs, _, _, hst, ht⟩
    · rw [ht] at hnone
      cases hnone
    · rw [ht] at hnone
      cases hnone
    · obtain ⟨_, h1⟩ := remoteStore_set_ok accepts st st1 _ hs
      rw [ht] at hnone
      rw [hst, ih st1 hnone, h1, mergeAll_cons]

theorem lastField_of_not_mem (es : List (String × Json)) (d f : String)
    (h : d ∉ es.map Prod.fst) : lastField es d f = none := by
  induction es with
  | nil => rfl
  | cons e rest ih =>
    obtain ⟨k, body⟩ := e
    simp only [List.map_cons, List.mem_cons, not_or] at h
    simp only [lastField, ih h.2]
    simp [Ne.symm h.1]

theorem mergeAll_apply (es : List (String × Json)) :
    ∀ (st : Store) (c d : String), mergeAll st es c d =
      if c = "blogs" ∧ d ∈ es.map Prod.fst then some (mergedDoc es (st c d) d) else st c d := by
  induction es with
  | nil => intro st c d; simp [mergeAll]
  | cons e rest ih =>
    intro st c d
    obtain ⟨k, body⟩ := e
    rw [mergeAll_cons, ih]
    by_cases hc : c = "blogs"
    · subst hc
      by_cases hr : d ∈ rest.map Prod.fst
      · by_cases hk : d = k
        · subst hk
          simp only [hr, and_self, if_true, List.map_cons, List.mem_cons, true_or,
            Option.some.injEq]
          funext f
          simp only [mergedDoc, lastField, Store.write, requestOf, and_self, if_true]
          cases lastField rest d f with
          | some v => rfl
          | none => simp [mergeDoc]
        · simp only [hr, and_self, if_true, List.map_cons, List.mem_cons, or_true,
            Option.some.injEq]
          funext f
          simp only [mergedDoc, lastField, Store.write, requestOf, hk, and_false, if_false]
          cases lastField rest d f with
          | some v => rfl
          | none => simp [Ne.symm hk]
      · by_cases hk : d = k
        · subst hk
          simp only [hr, and_false, if_false, List.map_cons, List.mem_cons, true_or, and_self,
            if_true, Store.write, requestOf, Option.some.injEq]
          funext f
          simp [mergedDoc, lastField, lastField_of_not_mem rest d f hr, mergeDoc]
        · simp [hr, hk, Store.write, requestOf]
    · simp [hc, Store.write, requestOf]

theorem mergeAll_idem (st : Store) (es : List (String × Json)) :
    mergeAll (mergeAll st es) es = mergeAll st es := by
  funext c d
  rw [mergeAll_apply es (mergeAll st es), mergeAll_apply es st]
  by_cases h : c = "blogs" ∧ d ∈ es.map Prod.fst
  · simp only [h, and_self, if_true, Option.some.injEq]
    funext f
    simp only [mergedDoc]
    cases lastField es d f with
    | some v => rfl
    | none => rfl
  · simp only [h, if_false]

theorem lastField_eq_some (es : List (String × Json)) (d f : String) (v : Json)
    (hn : (es.map Prod.fst).Nodup) :
    lastField es d f = some v ↔ ∃ body, (d, body) ∈ es ∧ field body f = some v := by
  induction es with
  | nil => simp [lastField]
  | cons e rest ih =>
    obtain ⟨k, b⟩ := e
    simp only [List.map_cons, List.nodup_cons] at hn
    simp only [lastField]
    constructor
    · intro h
      cases hr : lastField rest d f with
      | some w =>
        rw [hr] at h
        cases h
        obtain ⟨body, hm, hf⟩ := (ih hn.2).mp hr
        exact ⟨body, List.mem_cons_of_mem _ hm, hf⟩
      | none =>
        rw [hr] at h
        by_cases hk : k = d
        · simp only [hk, if_true] at h
          exact ⟨b, by rw [hk]; exact List.mem_cons_self _ _, h⟩
        · simp [hk] at h
    · rintro ⟨body, hm, hf⟩
      rcases List.mem_cons.mp hm with heq | hmem
      · cases heq
        rw [lastField_of_not_mem rest d f hn.1]
        simpa using hf
      · rw [(ih hn.2).mpr ⟨body, hmem, hf⟩]

theorem mergeAll_congr (st : Store) (es1 es2 : List (String × Json))
    (h1 : (es1.map Prod.fst).Nodup) (h2 : (es2.map Prod.fst).Nodup)
    (hmem : ∀ x, x ∈ es1 ↔ x ∈ es2) : mergeAll st es1 = mergeAll st es2 := by
  have hkeys : ∀ d, d ∈ es1.map Prod.fst ↔ d ∈ es2.map Prod.fst := by
    intro d
    simp only [List.mem_map]
    constructor
    · rintro ⟨x, hx, rfl⟩
      exact ⟨x, (hmem x).mp hx, rfl⟩
    · rintro ⟨x, hx, rfl⟩
      exact ⟨x, (hmem x).mpr hx, rfl⟩
  have hlast : ∀ d f, lastField es1 d f = lastField es2 d f := by
    intro d f
    apply Option.ext
    intro v
    simp only [Option.mem_def]
    rw [lastField_eq_some es1 d f v h1, lastField_eq_some es2 d f v h2]
    constructor
    · rintro ⟨body, hm, hf⟩
      exact ⟨body, (hmem _).mp hm, hf⟩
    · rintro ⟨body, hm, hf⟩
      exact ⟨body, (hmem _).mpr hm, hf⟩
  funext c d
  rw [mergeAll_apply es1, mergeAll_apply es2]
  by_cases h : c = "blogs" ∧ d ∈ es1.map Prod.fst
  · have h' : c = "blogs" ∧ d ∈ es2.map Prod.fst := ⟨h.1, (hkeys d).mp h.2⟩
    simp only [h, h', and_self, if_true, Option.some.injEq]
    funext f
    simp only [mergedDoc, hlast]
  · have h' : ¬ (c = "blogs" ∧ d ∈ es2.map Prod.fst) := fun hc => h ⟨hc.1, (hkeys d).mpr hc.2⟩
    simp only [h, h', if_false]

theorem uploadData_exit_zero {σ : Type} (db : Client σ) (data : FileInput) (st : σ)
    (h : (uploadData db data st).term = .exit 0) :
    ∃ es, loopEntries data = .ok es ∧ (uploadLoop db es st).thrown = none ∧
      (uploadData db data st).store = (uploadLoop db es st).store ∧
      writes (uploadData db data st).trace = writes (uploadLoop db es st).trace := by
  cases hl : loopEntries data with
  | error e =>
    rw [(uploadData_error db data st e hl).2.2.1] at h
    cases h
  | ok es =>
    obtain ⟨hw, hs, _, hfail⟩ := uploadData_ok db data st es hl
    refine ⟨es, rfl, ?_, hs, hw⟩
    cases ht : (uploadLoop db es st).thrown with
    | none => rfl
    | some e =>
      rw [(hfail e ht).1] at h
      cases h

/-! ## The project id -/

theorem getProp_eq_field (j : Json) (k : String) (hlen : k ≠ "length")
    (hidx : arrayIndex k = none) : getProp j k = field j k := by
  cases j <;> simp [getProp, field, hlen, hidx]

theorem optMember_eq_field (j : Json) (k : String) (hlen : k ≠ "length")
    (hidx : arrayIndex k = none) : optMember (some j) k = field j k := by
  cases j with
  | null => rfl
  | _ => simp only [optMember, getProp_eq_field _ k hlen hidx]

theorem optMember_chain (ks : List String) : ∀ (v : JsValue),
    (∀ k ∈ ks, k ≠ "length" ∧ arrayIndex k = none) →
    ks.foldl optMember v = match v with
      | some j => nestedField j ks
      | none => none := by
  induction ks with
  | nil => intro v _; cases v <;> rfl
  | cons k ks ih =>
    intro v hks
    have hk := hks k (List.mem_cons_self _ _)
    have hrest := fun x hx => hks x (List.mem_cons_of_mem _ hx)
    rw [List.foldl_cons, ih _ hrest]
    cases v with
    | none => rfl
    | some j =>
      rw [optMember_eq_field j k hk.1 hk.2]
      simp only [nestedField]
      cases field j k <;> rfl

theorem projectIdPath_plain : ∀ k ∈ projectIdPath, k ≠ "length" ∧ arrayIndex k = none := by
  decide

theorem readProjectId_parsed (j : Json) :
    (readProjectId (.parsed j)).1 =
      orElse (nestedField j projectIdPath) (some (.str "migynaeblogs")) := by
  have h := optMember_chain projectIdPath (some j) projectIdPath_plain
  simp only [projectIdPath, List.foldl_cons, List.foldl_nil] at h
  simp only [readProjectId, parseFile, projectIdPath]
  rw [h]

theorem writes_readProjectId (config : FileInput) : writes (readProjectId config).2 = [] := by
  cases config <;> rfl

theorem member_blogs (j : Json) (hj : j ≠ .null) :
    member (some j) "blogs" = .ok (field j "blogs") := by
  have h := getProp_eq_field j "blogs" (by decide) (by decide)
  cases j with
  | null => exact absurd rfl hj
  | _ => simp only [member, h]

theorem loopEntries_error_of_no_blogs (j : Json)
    (h : field j "blogs" = none ∨ field j "blogs" = some .null) :
    loopEntries (.parsed j) = .error .typeError := by
  by_cases hj : j = .null
  · subst hj
    rfl
  · simp only [loopEntries, parseFile, bind, Except.bind, member_blogs j hj]
    rcases h with h | h <;> rw [h] <;> rfl

/-! ## The claims -/

/-- C3, as stated, fails: a configuration whose project-id field holds the empty
string contains the nested field, and `readProjectId` returns the default
identifier instead of the field's value. -/
theorem readProjectId_empty_string_gives_default :
    nestedField (configWith (.str "")) projectIdPath = some (.str "") ∧
      (readProjectId (.parsed (configWith (.str "")))).1 = some (.str "migynaeblogs") ∧
      (readProjectId (.parsed (configWith (.str "")))).1 ≠ some (.str "") := by
  refine ⟨rfl, rfl, ?_⟩
  intro h
  have h2 : (readProjectId (.parsed (configWith (.str "")))).1 = some (.str "migynaeblogs") := rfl
  rw [h2] at h
  simp only [Option.some.injEq, Json.str.injEq] at h
  exact absurd h (by decide)

/-- C3, amended: for every configuration file that parses as JSON and contains the
nested field flutter.platforms.android.default.projectId, `readProjectId` returns
that field's value when the value is truthy, and the default identifier
"migynaeblogs" when it is falsy (the empty string, 0, false or null). -/
theorem readProjectId_of_field (j v : Json) (h : nestedField j projectIdPath = some v) :
    (readProjectId (.parsed j)).1 =
      if truthy (some v) then some v else some (.str "migynaeblogs") := by
  rw [readProjectId_parsed, h]
  rfl

/-- Witness of `readProjectId_of_field`: the project id "demo-project". -/
theorem readProjectId_of_field_witness :
    nestedField (configWith (.str "demo-project")) projectIdPath = some (.str "demo-project") ∧
      (readProjectId (.parsed (configWith (.str "demo-project")))).1 =
        some (.str "demo-project") :=
  ⟨rfl, (readProjectId_of_field (configWith (.str "demo-project")) (.str "demo-project")
    rfl).trans rfl⟩

/-- C4: `readProjectId` is a total function (nothing escapes its `try`), and for
every configuration input that is absent, is not valid JSON, or lacks the field
at some level of the path flutter.platforms.android.default.projectId, it returns
the default identifier "migynaeblogs". -/
theorem readProjectId_default (config : FileInput)
    (h : config = .missing ∨ config = .malformed ∨
      ∃ j, config = .parsed j ∧ nestedField j projectIdPath = none) :
    (readProjectId config).1 = some (.str "migynaeblogs") := by
  rcases h with h | h | ⟨j, h, hn⟩
  · subst h
    rfl
  · subst h
    rfl
  · subst h
    rw [readProjectId_parsed, hn]
    rfl

/-- Witness of `readProjectId_default`: a configuration whose `flutter` object has
no `platforms` field. -/
theorem readProjectId_default_witness :
    nestedField (.obj [("flutter", .obj [("other", .null)])]) projectIdPath = none ∧
      (readProjectId (.parsed (.obj [("flutter", .obj [("other", .null)])]))).1 =
        some (.str "migynaeblogs") :=
  ⟨rfl, readProjectId_default _ (Or.inr (Or.inr ⟨_, rfl, rfl⟩))⟩

/-- C5: when loading the service-account key or initialising the app raises, the
script ends with exit code 1, issues no write and leaves the store unchanged,
whatever the configuration, the data file and the client are. -/
theorem runScript_without_credentials {σ : Type} (db : Client σ) (config : FileInput)
    (error : JsError) (data : FileInput) (st : σ) :
    (runScript db config (some error) data st).term.code = 1 ∧
      writes (runScript db config (some error) data st).trace = [] ∧
      (runScript db config (some error) data st).store = st := by
  have hw := writes_readProjectId config
  unfold runScript
  cases hr : readProjectId config with
  | mk projectId l0 =>
    rw [hr] at hw
    simp only at hw ⊢
    cases template projectId with
    | error e => exact ⟨rfl, hw, rfl⟩
    | ok name =>
      refine ⟨rfl, ?_, rfl⟩
      simp only [initFailed, writes_append, hw]
      rfl

/-- C6, as stated, fails: a data file whose `blogs` field is a number has no
`blogs` mapping, and `uploadData` ends with exit code 0. -/
theorem uploadData_blogs_number_exits_zero :
    blogsMapping blogsNumber = none ∧
      (uploadData (recorder acceptAll) blogsNumber []).term = .exit 0 ∧
      (uploadData (recorder acceptAll) blogsNumber []).term ≠ .exit 1 := by
  refine ⟨rfl, rfl, ?_⟩
  intro h
  have h2 : (uploadData (recorder acceptAll) blogsNumber []).term = .exit 0 := rfl
  rw [h2] at h
  cases h

/-- C6, amended: if the data file is missing, is not valid JSON, or its parsed
value has no `blogs` field or a `blogs` field that is null, `uploadData` issues no
write, leaves the store unchanged, reports the error in its own `catch` block and
ends with exit code 1. -/
theorem uploadData_without_blogs {σ : Type} (db : Client σ) (data : FileInput) (st : σ)
    (h : data = .missing ∨ data = .malformed ∨
      ∃ j, data = .parsed j ∧ (field j "blogs" = none ∨ field j "blogs" = some .null)) :
    writes (uploadData db data st).trace = [] ∧ (uploadData db data st).store = st ∧
      (uploadData db data st).term = .exit 1 ∧
      ∃ e, Event.errMsg "❌ Error uploading data:" e ∈ (uploadData db data st).trace := by
  have herr : ∃ e, loopEntries data = .error e := by
    rcases h with h | h | ⟨j, h, hn⟩
    · exact ⟨.fileNotFound, by subst h; rfl⟩
    · exact ⟨.syntaxError, by subst h; rfl⟩
    · exact ⟨.typeError, by subst h; exact loopEntries_error_of_no_blogs j hn⟩
  obtain ⟨e, he⟩ := herr
  obtain ⟨h1, h2, h3, h4⟩ := uploadData_error db data st e he
  exact ⟨h1, h2, h3, e, h4⟩

/-- Witness of `uploadData_without_blogs`: a data file that holds an empty object. -/
theorem uploadData_without_blogs_witness :
    writes (uploadData (recorder acceptAll) (.parsed (.obj [])) []).trace = [] ∧
      (uploadData (recorder acceptAll) (.parsed (.obj [])) []).store = [] ∧
      (uploadData (recorder acceptAll) (.parsed (.obj [])) []).term = .exit 1 ∧
      ∃ e, Event.errMsg "❌ Error uploading data:" e ∈
        (uploadData (recorder acceptAll) (.parsed (.obj [])) []).trace :=
  uploadData_without_blogs (recorder acceptAll) (.parsed (.obj [])) []
    (Or.inr (Or.inr ⟨.obj [], rfl, Or.inl rfl⟩))

/-- C1, as stated, fails: `objectTitle` has a `blogs` mapping with two entries and
the remote accepts every request, yet `uploadData` issues one write only and ends
with exit code 1: the title of the first post cannot be converted to a string, so
the template literal of line 73 raises after the first write. -/
theorem uploadData_object_title_stops :
    (blogsMapping objectTitle).map (fun members => (ownEntries members).length) = some 2 ∧
      (∀ st req, ∃ st1, (recorder acceptAll).set st req = .ok st1) ∧
      (writes (uploadData (recorder acceptAll) objectTitle []).trace).length = 1 ∧
      (uploadData (recorder acceptAll) objectTitle []).term = .exit 1 :=
  ⟨rfl, fun st req => ⟨st ++ [req], rfl⟩, rfl, rfl⟩

/-- C1, amended: for every data file whose `blogs` mapping has N entries (N = 0
included), each with a body whose console lines can be printed, and every remote
store in which each write succeeds, `uploadData` issues exactly N writes, one per
entry of the mapping in the order of `Object.entries`, each addressed to
collection "blogs" at the entry's identifier with the entry's body unmodified and
the merge option, and then ends with exit code 0. -/
theorem uploadData_writes_every_entry {σ : Type} (db : Client σ) (data : FileInput) (st : σ)
    (members : List (String × Json)) (hdata : blogsMapping data = some members)
    (hok : ∀ s, ∀ e ∈ ownEntries members, ∃ s1, db.set s ⟨"blogs", e.1, e.2, true⟩ = .ok s1)
    (hlog : ∀ e ∈ ownEntries members, (logSummary e.1 e.2).2 = none) :
    writes (uploadData db data st).trace =
        (ownEntries members).map (fun e => (⟨"blogs", e.1, e.2, true⟩, true)) ∧
      (writes (uploadData db data st).trace).length = (ownEntries members).length ∧
      (uploadData db data st).term = .exit 0 := by
  obtain ⟨hw, _, hzero, _⟩ :=
    uploadData_ok db data st (ownEntries members) (loopEntries_of_blogsMapping data members hdata)
  obtain ⟨hall, hnone⟩ := uploadLoop_all db (ownEntries members) st hok hlog
  have hwr : writes (uploadData db data st).trace =
      (ownEntries members).map (fun e => (⟨"blogs", e.1, e.2, true⟩, true)) := by
    rw [hw, hall]
    rfl
  exact ⟨hwr, by rw [hwr, List.length_map], hzero hnone⟩

/-- Witness of `uploadData_writes_every_entry`: the example scenario, one write to
`blogs/post1` and exit code 0. -/
theorem uploadData_writes_every_entry_witness :
    writes (uploadData (recorder acceptAll) onePost []).trace =
        [(⟨"blogs", "post1", .obj [("title", .str "A"),
          ("contentBlocks", .arr [.num "1", .num "2"]), ("readTimeMinutes", .num "3")], true⟩,
          true)] ∧
      (uploadData (recorder acceptAll) onePost []).term = .exit 0 := by
  have h := uploadData_writes_every_entry (recorder acceptAll) onePost []
    [("post1", .obj [("title", .str "A"), ("contentBlocks", .arr [.num "1", .num "2"]),
      ("readTimeMinutes", .num "3")])] rfl
    (fun _ _ _ => ⟨_, rfl⟩)
    (by
      intro e he
      have hown : ownEntries [("post1", Json.obj [("title", .str "A"),
          ("contentBlocks", .arr [.num "1", .num "2"]), ("readTimeMinutes", .num "3")])] =
          [("post1", Json.obj [("title", .str "A"),
            ("contentBlocks", .arr [.num "1", .num "2"]), ("readTimeMinutes", .num "3")])] := rfl
      rw [hown, List.mem_singleton] at he
      subst he
      rfl)
  exact ⟨h.1, h.2.2⟩

/-- C2: for every data file and every K, if the write number K + 1 of `uploadData`
fails, then the K writes before it are those of the first K entries and all
succeeded, the store is the one that these K writes leave, the failed write is
the last `set` call of the run (no write is attempted for a later entry), and
the run ends with exit code 1. -/
theorem uploadData_stops_at_failed_write {σ : Type} (db : Client σ) (data : FileInput)
    (st : σ) (K : Nat) (req : WriteReq)
    (hfail : (writes (uploadData db data st).trace).get? K = some (req, false)) :
    writes (uploadData db data st).trace =
        ((entriesOf data).take K).map (fun e => (requestOf e, true)) ++ [(req, false)] ∧
      ((entriesOf data).get? K).map requestOf = some req ∧
      (uploadData db data st).store =
        applyWrites db st (((entriesOf data).take K).map requestOf) ∧
      (uploadData db data st).term = .exit 1 := by
  cases hl : loopEntries data with
  | error e =>
    rw [(uploadData_error db data st e hl).1] at hfail
    simp at hfail
  | ok es =>
    obtain ⟨hw, hs, _, hthrown⟩ := uploadData_ok db data st es hl
    rw [hw] at hfail
    obtain ⟨h1, h2, h3, err, h4⟩ := uploadLoop_abort db es st K req hfail
    have he : entriesOf data = es := by simp only [entriesOf, hl]
    rw [he, hw, hs]
    exact ⟨h1, h2, h3, (hthrown err h4).1⟩

/-- Witness of `uploadData_stops_at_failed_write`: three posts, the remote rejects
the second; one write has taken effect, no write is attempted for the third. -/
theorem uploadData_stops_at_failed_write_witness :
    writes (uploadData (recorder rejectB) threePosts []).trace =
        [(⟨"blogs", "a", .obj [("title", .str "A")], true⟩, true),
          (⟨"blogs", "b", .obj [("title", .str "B")], true⟩, false)] ∧
      (uploadData (recorder rejectB) threePosts []).store =
        [⟨"blogs", "a", .obj [("title", .str "A")], true⟩] ∧
      (uploadData (recorder rejectB) threePosts []).term = .exit 1 := by
  have h := uploadData_stops_at_failed_write (recorder rejectB) threePosts [] 1
    ⟨"blogs", "b", .obj [("title", .str "B")], true⟩ rfl
  exact ⟨h.1.trans rfl, h.2.2.1.trans rfl, h.2.2.2⟩

/-- C8, as stated, fails: in `numeralKey` the keys appear in the order "b", "1",
and a run in which every write succeeds writes "1" first and "b" second. -/
theorem uploadData_numeral_key_first :
    (blogsMapping numeralKey).map (fun members => members.map Prod.fst) = some ["b", "1"] ∧
      (uploadData (recorder acceptAll) numeralKey []).term = .exit 0 ∧
      (writes (uploadData (recorder acceptAll) numeralKey []).trace).map
        (fun w => (w.1.doc, w.2)) = [("1", true), ("b", true)] :=
  ⟨rfl, rfl, rfl⟩

/-- C8, amended: for every data file with a `blogs` mapping, the identifiers of the
`set` calls of `uploadData`, in the order of the calls, are an initial segment of
the keys of the mapping in the order of `Object.entries` (the keys that are
array indices in ascending numeric order, then the other keys in insertion
order), and all of them when the run ends with exit code 0; this order is the
insertion order when no key is an array index and no key is repeated. Each call
is made on the store that the previous call left. -/
theorem uploadData_key_order {σ : Type} (db : Client σ) (data : FileInput) (st : σ)
    (members : List (String × Json)) (hdata : blogsMapping data = some members) :
    (writes (uploadData db data st).trace).map (fun w => w.1.doc) <+: ownKeys members ∧
      ((uploadData db data st).term = .exit 0 →
        (writes (uploadData db data st).trace).map (fun w => (w.1.doc, w.2)) =
          (ownKeys members).map (fun k => (k, true))) ∧
      ((members.map Prod.fst).Nodup → (∀ k ∈ members.map Prod.fst, arrayIndex k = none) →
        ownKeys members = members.map Prod.fst) ∧
      (uploadData db data st).store =
        applyWrites db st ((writes (uploadData db data st).trace).map Prod.fst) := by
  have hl := loopEntries_of_blogsMapping data members hdata
  obtain ⟨hw, hs, _, hthrown⟩ := uploadData_ok db data st (ownEntries members) hl
  obtain ⟨hpre, hall⟩ := uploadLoop_initial db (ownEntries members) st
  refine ⟨?_, ?_, ownKeys_of_plain members, ?_⟩
  · rw [hw]
    have h := hpre.map (fun r : WriteReq => r.doc)
    simp only [List.map_map] at h
    have hk : (ownEntries members).map ((fun r : WriteReq => r.doc) ∘ requestOf) =
        ownKeys members := by
      rw [← ownEntries_keys]
      rfl
    rw [hk] at h
    exact h
  · intro hzero
    obtain ⟨es, hes, hnone, _, _⟩ := uploadData_exit_zero db data st hzero
    rw [hl] at hes
    cases hes
    rw [hw, hall hnone, ← ownEntries_keys]
    simp only [List.map_map]
    rfl
  · rw [hw, hs]
    exact uploadLoop_store db (ownEntries members) st

/-- Witness of `uploadData_key_order`: the three posts "a", "b", "c" are written in
the order of the file. -/
theorem uploadData_key_order_witness :
    (writes (uploadData (recorder acceptAll) threePosts []).trace).map
        (fun w => (w.1.doc, w.2)) = [("a", true), ("b", true), ("c", true)] :=
  ((uploadData_key_order (recorder acceptAll) threePosts []
    [("a", .obj [("title", .str "A")]), ("b", .obj [("title", .str "B")]),
      ("c", .obj [("title", .str "C")])] rfl).2.1 rfl).trans rfl

/-- C7: against the remote document store, for every initial store and every data
file (whether or not all writes succeed), running `uploadData` a second time on
the store that the first run left gives the same store again. -/
theorem uploadData_twice (accepts : WriteReq → Bool) (data : FileInput) (st : Store) :
    (uploadData (remoteStore accepts) data
        (uploadData (remoteStore accepts) data st).store).store =
      (uploadData (remoteStore accepts) data st).store := by
  cases hl : loopEntries data with
  | error e =>
    rw [(uploadData_error (remoteStore accepts) data _ e hl).2.1]
  | ok es =>
    have h1 := (uploadData_ok (remoteStore accepts) data st es hl).2.1
    have h2 := (uploadData_ok (remoteStore accepts) data
      (uploadData (remoteStore accepts) data st).store es hl).2.1
    rw [h2, uploadLoop_remote_store, h1, uploadLoop_remote_store, mergeAll_idem]

/-- C9: against the remote document store, after a run of `uploadData` that ends
with exit code 0, (a) every document whose identifier is not a key of the `blogs`
mapping, and every document of another collection, is unchanged, and (b) for
each key of the mapping the stored document has every field of the uploaded body
at the body's value and every other field at the value it had before. -/
theorem uploadData_frame (accepts : WriteReq → Bool) (data : FileInput) (st : Store)
    (members : List (String × Json)) (hdata : blogsMapping data = some members)
    (hzero : (uploadData (remoteStore accepts) data st).term = .exit 0) :
    (∀ c d, (c ≠ "blogs" ∨ d ∉ members.map Prod.fst) →
        (uploadData (remoteStore accepts) data st).store c d = st c d) ∧
      (∀ k body, lookupLast members k = some body →
        ∃ doc, (uploadData (remoteStore accepts) data st).store "blogs" k = some doc ∧
          (∀ f v, field body f = some v → doc f = some v) ∧
          (∀ f, field body f = none → doc f = (st "blogs" k).bind (fun old => old f))) := by
  have hl := loopEntries_of_blogsMapping data members hdata
  obtain ⟨es, hes, hnone, hs, _⟩ := uploadData_exit_zero (remoteStore accepts) data st hzero
  rw [hl] at hes
  cases hes
  rw [hs, uploadLoop_remote_done accepts _ st hnone]
  constructor
  · intro c d hcd
    rw [mergeAll_apply, ownEntries_keys]
    have : ¬ (c = "blogs" ∧ d ∈ ownKeys members) := by
      rintro ⟨hc, hd⟩
      rcases hcd with h | h
      · exact h hc
      · exact h ((mem_ownKeys members d).mp hd)
    simp only [this, if_false]
  · intro k body hk
    have hmem : (k, body) ∈ ownEntries members := (mem_ownEntries members k body).mpr hk
    have hkey : k ∈ (ownEntries members).map Prod.fst := List.mem_map.mpr ⟨(k, body), hmem, rfl⟩
    have hlast : ∀ f, lastField (ownEntries members) k f = field body f := by
      intro f
      apply Option.ext
      intro v
      simp only [Option.mem_def]
      rw [lastField_eq_some _ k f v (nodup_ownEntries_keys members)]
      constructor
      · rintro ⟨b, hb, hf⟩
        have hb2 := (mem_ownEntries members k b).mp hb
        rw [hk] at hb2
        cases hb2
        exact hf
      · intro hf
        exact ⟨body, hmem, hf⟩
    refine ⟨mergedDoc (ownEntries members) (st "blogs" k) k, ?_, ?_, ?_⟩
    · rw [mergeAll_apply]
      simp only [hkey, and_self, if_true]
    · intro f v hf
      simp only [mergedDoc, hlast, hf]
    · intro f hf
      simp only [mergedDoc, hlast, hf]
      cases st "blogs" k <;> rfl

/-- Witness of `uploadData_frame`: the example scenario run on a store that holds
a document `post1` with a field `views`. -/
theorem uploadData_frame_witness :
    (∀ c d, (c ≠ "blogs" ∨ d ∉ ["post1"]) →
        (uploadData (remoteStore acceptAll) onePost seededStore).store c d = seededStore c d) ∧
      (∀ k body, lookupLast [("post1", Json.obj [("title", .str "A"),
          ("contentBlocks", .arr [.num "1", .num "2"]), ("readTimeMinutes", .num "3")])] k =
            some body →
        ∃ doc, (uploadData (remoteStore acceptAll) onePost seededStore).store "blogs" k =
            some doc ∧
          (∀ f v, field body f = some v → doc f = some v) ∧
          (∀ f, field body f = none → doc f = (seededStore "blogs" k).bind (fun old => old f))) :=
  uploadData_frame acceptAll onePost seededStore
    [("post1", .obj [("title", .str "A"), ("contentBlocks", .arr [.num "1", .num "2"]),
      ("readTimeMinutes", .num "3")])] rfl rfl

/-- C10: against the remote document store, for every initial store and every two
data files whose `blogs` mappings hold the same (identifier, body) pairs, with
unique identifiers, in different orders, two runs of `uploadData` that end with
exit code 0 leave the same store. -/
theorem uploadData_order_independent (accepts : WriteReq → Bool) (data1 data2 : FileInput)
    (st : Store) (members1 members2 : List (String × Json))
    (h1 : blogsMapping data1 = some members1) (h2 : blogsMapping data2 = some members2)
    (hperm : members1.Perm members2) (hnodup : (members1.map Prod.fst).Nodup)
    (hzero1 : (uploadData (remoteStore accepts) data1 st).term = .exit 0)
    (hzero2 : (uploadData (remoteStore accepts) data2 st).term = .exit 0) :
    (uploadData (remoteStore accepts) data1 st).store =
      (uploadData (remoteStore accepts) data2 st).store := by
  have hl1 := loopEntries_of_blogsMapping data1 members1 h1
  have hl2 := loopEntries_of_blogsMapping data2 members2 h2
  obtain ⟨es1, hes1, hnone1, hs1, _⟩ := uploadData_exit_zero (remoteStore accepts) data1 st hzero1
  obtain ⟨es2, hes2, hnone2, hs2, _⟩ := uploadData_exit_zero (remoteStore accepts) data2 st hzero2
  rw [hl1] at hes1
  rw [hl2] at hes2
  cases hes1
  cases hes2
  rw [hs1, hs2, uploadLoop_remote_done accepts _ st hnone1,
    uploadLoop_remote_done accepts _ st hnone2]
  have hnodup2 : (members2.map Prod.fst).Nodup := (hperm.map Prod.fst).nodup_iff.mp hnodup
  apply mergeAll_congr st _ _ (nodup_ownEntries_keys members1) (nodup_ownEntries_keys members2)
  rintro ⟨k, v⟩
  rw [mem_ownEntries, mem_ownEntries]
  constructor
  · intro h
    exact lookupLast_of_mem members2 k v hnodup2
      (hperm.mem_iff.mp (mem_of_lookupLast members1 k v h))
  · intro h
    exact lookupLast_of_mem members1 k v hnodup
      (hperm.mem_iff.mpr (mem_of_lookupLast members2 k v h))

/-- Witness of `uploadData_order_independent`: the same two posts in the two orders. -/
theorem uploadData_order_independent_witness :
    (uploadData (remoteStore acceptAll) postsBA seededStore).store =
      (uploadData (remoteStore acceptAll) postsAB seededStore).store :=
  uploadData_order_independent acceptAll postsBA postsAB seededStore
    [("b", .obj [("title", .str "B")]), ("a", .obj [("title", .str "A")])]
    [("a", .obj [("title", .str "A")]), ("b", .obj [("title", .str "B")])]
    rfl rfl (List.Perm.swap _ _ _) (by simp) rfl rfl

end UploadToFirebase
